import Mathlib

/-
Verification of the Simple-Shell interpreter (zarembmj_shell.cpp).

The development shallowly embeds the three components the claims are about:

 * `split` — the tokenizer, modelling `std::istringstream >> std::quoted(word)`
   as a character-by-character state machine (skip whitespace; a word reads to
   the next whitespace; a quoted word reads to the closing quote with the
   backslash escape of `std::quoted`; hitting end-of-line inside a quoted word
   fails the stream, so the partial word is dropped).
 * `breakDownURL` — the URL resolver, with faithful C++ `size_t` semantics:
   `std::string::npos` is 2^64 - 1, `find` returns `npos` on failure, the
   arithmetic `url.find("//") + 2`, `hostEnd - hostStart` and
   `pathStart - portPos - 1` wraps modulo 2^64, `substr(pos, count)` clamps
   `count` but throws `std::out_of_range` when `pos > size()` (modelled as
   `none`).
 * `processLoop` / `process` / `processScript` — the interpreter loop.  The
   input stream is a list of lines, the external collaborators (file system,
   HTTP transport, spawn/wait primitives) are an explicit environment `Env`;
   each spawned child is tagged with a fresh pid drawn from a counter, so a
   trace records the observable output (prompt prints, the "Running: ..."
   echo of `runCommand`, and each "Exit code: ..." report) together with the
   handle it belongs to.  Out-of-range `std::vector` indexing (undefined
   behavior in the C++) is `Err.oob`; the fuel that bounds nested-script
   recursion depth (the C++ recursion is unbounded) is `Err.fuel` when it
   runs out.
-/

namespace Shell

/-- C-locale whitespace, as used by `operator>>` on an `istringstream`. -/
def isSpace (c : Char) : Bool :=
  c = ' ' || c = '\t' || c = '\n' || c = '\x0b' || c = '\x0c' || c = '\r'

/-- State of the tokenizer while scanning one line: between words, inside an
unquoted word, inside a quoted word, or right after the escape character
inside a quoted word. -/
inductive SplitState where
  | between : SplitState
  | word : List Char → SplitState
  | quoted : List Char → SplitState
  | escaped : List Char → SplitState
deriving DecidableEq

/-- One step of the tokenizer state machine on a single character. -/
def splitStep (st : SplitState × List String) (c : Char) : SplitState × List String :=
  match st with
  | (SplitState.between, toks) =>
    if isSpace c then (SplitState.between, toks)
    else if c = '"' then (SplitState.quoted [], toks)
    else (SplitState.word [c], toks)
  | (SplitState.word acc, toks) =>
    if isSpace c then (SplitState.between, toks ++ [String.mk acc])
    else (SplitState.word (acc ++ [c]), toks)
  | (SplitState.quoted acc, toks) =>
    if c = '\\' then (SplitState.escaped acc, toks)
    else if c = '"' then (SplitState.between, toks ++ [String.mk acc])
    else (SplitState.quoted (acc ++ [c]), toks)
  | (SplitState.escaped acc, toks) => (SplitState.quoted (acc ++ [c]), toks)

/-- `split` of zarembmj_shell.cpp: `while (is >> std::quoted(word)) argList.push_back(word)`.
At end of line, a pending unquoted word is a successful extraction and is
kept; a pending quoted word means the stream failed before the closing
quote, so the partial word is dropped. -/
def split (line : String) : List String :=
  match line.data.foldl splitStep (SplitState.between, []) with
  | (SplitState.word acc, toks) => toks ++ [String.mk acc]
  | (SplitState.quoted _, toks) => toks
  | (SplitState.escaped _, toks) => toks
  | (SplitState.between, toks) => toks

/-- `std::string::npos` on a 64-bit platform: 2^64 - 1. -/
def npos : Nat := 18446744073709551615

/-- Helper for single-character `std::string::find(char, pos)`. -/
def findCharAux (c : Char) : List Char → Nat → Option Nat
  | [], _ => none
  | d :: ds, i => if d = c then some i else findCharAux c ds (i + 1)

/-- `url.find(c, start)`: index of the first occurrence of `c` at or after
`start`, or `npos` when there is none (also when `start` is past the end). -/
def findCharFrom (s : List Char) (c : Char) (start : Nat) : Nat :=
  match findCharAux c (s.drop start) start with
  | some k => k
  | none => npos

/-- Helper for substring search from the front. -/
def findSubAux (pat : List Char) : List Char → Nat → Option Nat
  | [], _ => none
  | d :: ds, i => if pat.isPrefixOf (d :: ds) then some i else findSubAux pat ds (i + 1)

/-- `url.find("//")`: index of the first occurrence of `"//"`, or `npos`. -/
def find2 (s : List Char) : Nat :=
  match findSubAux ['/', '/'] s 0 with
  | some k => k
  | none => npos

/-- `std::string::substr(pos, count)`: throws `std::out_of_range` (here
`none`) when `pos > size()`, otherwise clamps `count` to the remaining
length. -/
def substr (s : List Char) (pos count : Nat) : Option (List Char) :=
  if pos ≤ s.length then some ((s.drop pos).take count) else none

/-- `breakDownURL` of zarembmj_shell.cpp, with C++ `size_t` arithmetic made
explicit: every intermediate value is reduced modulo `npos + 1` exactly where
the C++ `size_t` expressions wrap.  A thrown `std::out_of_range` from
`substr` is `none`. -/
def breakDownURL (url : String) : Option (String × String × String) :=
  let s := url.data
  let hostStart := (find2 s + 2) % (npos + 1)
  let pathStart := findCharFrom s '/' hostStart
  let portPos := findCharFrom s ':' hostStart
  let hostEnd := if portPos = npos then pathStart else portPos
  match substr s hostStart ((hostEnd + (npos + 1) - hostStart) % (npos + 1)) with
  | none => none
  | some hn =>
    match substr s pathStart npos with
    | none => none
    | some pa =>
      if portPos = npos then
        some (String.mk hn, "80", String.mk pa)
      else
        match substr s ((portPos + 1) % (npos + 1))
            ((pathStart + (npos + 1) - (portPos + 1)) % (npos + 1)) with
        | none => none
        | some po => some (String.mk hn, String.mk po, String.mk pa)

/-- Observable events of one interpreter run.  `promptEv s` is the
`std::cout << prompt` at the top of the loop; `echo pid args` is the
"Running: ..." line printed by `runCommand` when the child with handle `pid`
is spawned; `exitReport pid code` is the "Exit code: ..." line printed when
the child `pid` is waited on. -/
inductive Event where
  | promptEv : String → Event
  | echo : Nat → List String → Event
  | exitReport : Nat → Int → Event
deriving DecidableEq

/-- Failure of a modelled run: `oob` is an out-of-range `std::vector` index
(undefined behavior in the C++ source), `fuel` is exhaustion of the
recursion-depth fuel of the model (the C++ recursion into nested scripts is
unbounded). -/
inductive Err where
  | oob : Err
  | fuel : Err
deriving DecidableEq

/-- External collaborators: `file ref` is the line stream obtained from
`std::ifstream ref` (a missing file gives `[]`), `http ref` is the body line
stream produced by `setupHTTPStream` for the URL `ref`, and `exitCode pid` is
the termination status the OS reports when child `pid` is waited on. -/
structure Env where
  file : String → List String
  http : String → List String
  exitCode : Nat → Int

/-- The drain loop after `process`'s while loop:
`for (auto& proc : childList) std::cout << "Exit code: " << proc.wait()`. -/
def drain (env : Env) (childs : List Nat) : List Event :=
  childs.map (fun q => Event.exitReport q (env.exitCode q))

/-- `processScript`'s choice of line stream: a reference starting with the
literal prefix "http://" is fetched over the network, anything else is a
local file. -/
def resolveRef (env : Env) (ref : String) : List String :=
  if ref.startsWith "http://" then env.http ref else env.file ref

/-- The while loop of `process` in zarembmj_shell.cpp.  Arguments: recursion
fuel, the `parallel` flag, the prompt, the remaining lines of the stream, the
next fresh pid, and the accumulated `childList`.  Returns the events printed
by the loop itself, the final `childList` (drained by the caller), and the
next fresh pid.  A nested `SERIAL`/`PARALLEL` line runs the nested script to
completion — including the nested invocation's own drain — before the next
line of this stream is read. -/
def processLoop (env : Env) : Nat → Bool → String → List String → Nat → List Nat →
    Except Err (List Event × List Nat × Nat)
  | 0, _, _, _, _, _ => Except.error Err.fuel
  | Nat.succ fuel, par, prompt, lines, pid, childs =>
    match lines with
    | [] => Except.ok ([Event.promptEv prompt], childs, pid)
    | line :: rest =>
      if line = "exit" then Except.ok ([Event.promptEv prompt], childs, pid)
      else if line = "" ∨ line.data.head? = some '#' then
        (processLoop env fuel par prompt rest pid childs).map
          (fun r => (Event.promptEv prompt :: r.1, r.2.1, r.2.2))
      else
        match (split line)[0]? with
        | none => Except.error Err.oob
        | some w0 =>
          if w0 = "SERIAL" ∨ w0 = "PARALLEL" then
            match (split line)[1]? with
            | none => Except.error Err.oob
            | some ref =>
              match processLoop env fuel (w0 == "PARALLEL") "" (resolveRef env ref) pid [] with
              | Except.error e => Except.error e
              | Except.ok nr =>
                (processLoop env fuel par prompt rest nr.2.2 childs).map
                  (fun r => (Event.promptEv prompt :: (nr.1 ++ drain env nr.2.1) ++ r.1,
                             r.2.1, r.2.2))
          else
            if par then
              (processLoop env fuel par prompt rest (pid + 1) (childs ++ [pid])).map
                (fun r => (Event.promptEv prompt :: Event.echo pid (split line) :: r.1,
                           r.2.1, r.2.2))
            else
              (processLoop env fuel par prompt rest (pid + 1) childs).map
                (fun r => (Event.promptEv prompt :: Event.echo pid (split line) ::
                           Event.exitReport pid (env.exitCode pid) :: r.1, r.2.1, r.2.2))

/-- `process` of zarembmj_shell.cpp: run the while loop starting from an
empty local `childList`, then drain whatever the loop accumulated. -/
def process (env : Env) (fuel : Nat) (lines : List String) (prompt : String)
    (par : Bool) (pid : Nat) : Except Err (List Event × Nat) :=
  match processLoop env fuel par prompt lines pid [] with
  | Except.error e => Except.error e
  | Except.ok r => Except.ok (r.1 ++ drain env r.2.1, r.2.2)

/-- `processScript` of zarembmj_shell.cpp: resolve the reference to a line
stream and recursively invoke `process` on it with an empty prompt. -/
def processScript (env : Env) (fuel : Nat) (ref : String) (par : Bool) (pid : Nat) :
    Except Err (List Event × Nat) :=
  process env fuel (resolveRef env ref) "" par pid

/-- A line that the dispatcher treats as a generic command: not filtered as
empty/comment, not the exit line, tokenizes to a non-empty list whose first
word is neither composite verb. -/
def isGenericLine (l : String) : Bool :=
  (!((l == "") || (l.data.head? == some '#'))) && (l != "exit") &&
    (match (split l)[0]? with
     | none => false
     | some w => (w != "SERIAL") && (w != "PARALLEL"))

/-- Expected loop trace of a serial run over generic-command lines: prompt,
echo, immediate exit report, line after line. -/
def serialLoopTrace (env : Env) (prompt : String) : List String → Nat → List Event
  | [], _ => []
  | l :: ls, pid =>
    Event.promptEv prompt :: Event.echo pid (split l) ::
      Event.exitReport pid (env.exitCode pid) :: serialLoopTrace env prompt ls (pid + 1)

/-- Expected loop trace of a parallel run over generic-command lines: prompt
and echo only, all exit reports being deferred to the drain. -/
def parLoopTrace (prompt : String) : List String → Nat → List Event
  | [], _ => []
  | l :: ls, pid =>
    Event.promptEv prompt :: Event.echo pid (split l) :: parLoopTrace prompt ls (pid + 1)

/-- Number of "Exit code" reports for the handle `q` in a trace. -/
def countRep (evs : List Event) (q : Nat) : Nat :=
  evs.countP (fun e => match e with
    | Event.exitReport p _ => p == q
    | _ => false)

/-- Number of spawn echoes for the handle `q` in a trace. -/
def countEcho (evs : List Event) (q : Nat) : Nat :=
  evs.countP (fun e => match e with
    | Event.echo p _ => p == q
    | _ => false)

/-- A concrete environment for witnesses: every script is empty and child
`n` exits with status `n`. -/
def sampleEnv : Env where
  file := fun _ => []
  http := fun _ => []
  exitCode := fun n => Int.ofNat n

theorem countRep_cons_promptEv (s : String) (evs : List Event) (q : Nat) :
    countRep (Event.promptEv s :: evs) q = countRep evs q := by
  simp [countRep, List.countP_cons]

theorem countRep_cons_echo (p : Nat) (args : List String) (evs : List Event) (q : Nat) :
    countRep (Event.echo p args :: evs) q = countRep evs q := by
  simp [countRep, List.countP_cons]

theorem countRep_cons_report (p : Nat) (c : Int) (evs : List Event) (q : Nat) :
    countRep (Event.exitReport p c :: evs) q = countRep evs q + (if p = q then 1 else 0) := by
  simp [countRep, List.countP_cons]

theorem countRep_append (a b : List Event) (q : Nat) :
    countRep (a ++ b) q = countRep a q + countRep b q := by
  simp [countRep, List.countP_append]

theorem countRep_drain (env : Env) (l : List Nat) (q : Nat) :
    countRep (drain env l) q = l.count q := by
  induction l with
  | nil => rfl
  | cons x xs ih =>
    simp only [drain, List.map_cons] at *
    rw [countRep_cons_report, ih, List.count_cons]
    by_cases hx : x = q
    · simp [hx, if_pos, beq_iff_eq]
    · simp [hx, beq_iff_eq]

theorem countEcho_cons_promptEv (s : String) (evs : List Event) (q : Nat) :
    countEcho (Event.promptEv s :: evs) q = countEcho evs q := by
  simp [countEcho, List.countP_cons]

theorem countEcho_cons_echo (p : Nat) (args : List String) (evs : List Event) (q : Nat) :
    countEcho (Event.echo p args :: evs) q = countEcho evs q + (if p = q then 1 else 0) := by
  simp [countEcho, List.countP_cons]

theorem countEcho_cons_report (p : Nat) (c : Int) (evs : List Event) (q : Nat) :
    countEcho (Event.exitReport p c :: evs) q = countEcho evs q := by
  simp [countEcho, List.countP_cons]

theorem countEcho_append (a b : List Event) (q : Nat) :
    countEcho (a ++ b) q = countEcho a q + countEcho b q := by
  simp [countEcho, List.countP_append]

theorem countEcho_drain (env : Env) (l : List Nat) (q : Nat) :
    countEcho (drain env l) q = 0 := by
  induction l with
  | nil => rfl
  | cons x xs ih =>
    simp only [drain, List.map_cons] at *
    rw [countEcho_cons_report, ih]

theorem isGenericLine_spec (l : String) (h : isGenericLine l = true) :
    ¬(l = "exit") ∧ ¬(l = "" ∨ l.data.head? = some '#') ∧
      ∃ w, (split l)[0]? = some w ∧ ¬(w = "SERIAL" ∨ w = "PARALLEL") := by
  unfold isGenericLine at h
  cases hs : (split l)[0]? with
  | none => rw [hs] at h; simp at h
  | some w =>
    rw [hs] at h
    simp only [Bool.and_eq_true, Bool.not_eq_true', Bool.or_eq_false_iff, beq_eq_false_iff_ne,
      ne_eq, bne_iff_ne] at h
    refine ⟨h.1.2, ?_, w, rfl, ?_⟩
    · push_neg
      exact ⟨h.1.1.1, fun hc => h.1.1.2 (by simp [hc])⟩
    · rintro (hw | hw) <;> simp [hw] at h

theorem serial_loop_append (env : Env) (prompt : String) :
    ∀ (gs : List String) (fuel : Nat) (tail : List String) (pid : Nat) (c0 : List Nat),
      (∀ l ∈ gs, isGenericLine l = true) →
      processLoop env (fuel + gs.length) false prompt (gs ++ tail) pid c0 =
        (processLoop env fuel false prompt tail (pid + gs.length) c0).map
          (fun r => (serialLoopTrace env prompt gs pid ++ r.1, r.2.1, r.2.2)) := by
  intro gs
  induction gs with
  | nil =>
    intro fuel tail pid c0 _
    simp only [List.length_nil, Nat.add_zero, List.nil_append, serialLoopTrace]
    cases processLoop env fuel false prompt tail pid c0 <;> simp [Except.map]
  | cons g gs ih =>
    intro fuel tail pid c0 hg
    obtain ⟨hne, hnf, w, hw, hcomp⟩ := isGenericLine_spec g (hg g (by simp))
    have hlen : fuel + (g :: gs).length = (fuel + gs.length) + 1 := by
      simp [List.length_cons]; omega
    rw [hlen]
    simp only [List.cons_append, processLoop]
    rw [if_neg hne, if_neg hnf, hw]
    simp only [if_neg hcomp, Bool.false_eq_true, if_false]
    rw [ih fuel tail (pid + 1) c0 (fun l hl => hg l (by simp [hl]))]
    have harith : pid + 1 + gs.length = pid + (g :: gs).length := by
      simp [List.length_cons]; omega
    rw [harith]
    cases processLoop env fuel false prompt tail (pid + (g :: gs).length) c0 <;>
      simp [Except.map, serialLoopTrace]

theorem par_loop_append (env : Env) (prompt : String) :
    ∀ (gs : List String) (fuel : Nat) (tail : List String) (pid : Nat) (c0 : List Nat),
      (∀ l ∈ gs, isGenericLine l = true) →
      processLoop env (fuel + gs.length) true prompt (gs ++ tail) pid c0 =
        (processLoop env fuel true prompt tail (pid + gs.length)
            (c0 ++ List.range' pid gs.length)).map
          (fun r => (parLoopTrace prompt gs pid ++ r.1, r.2.1, r.2.2)) := by
  intro gs
  induction gs with
  | nil =>
    intro fuel tail pid c0 _
    simp only [List.length_nil, Nat.add_zero, List.nil_append, parLoopTrace, List.range',
      List.append_nil]
    cases processLoop env fuel true prompt tail pid c0 <;> simp [Except.map]
  | cons g gs ih =>
    intro fuel tail pid c0 hg
    obtain ⟨hne, hnf, w, hw, hcomp⟩ := isGenericLine_spec g (hg g (by simp))
    have hlen : fuel + (g :: gs).length = (fuel + gs.length) + 1 := by
      simp [List.length_cons]; omega
    rw [hlen]
    simp only [List.cons_append, processLoop]
    rw [if_neg hne, if_neg hnf, hw]
    simp only [if_neg hcomp, if_true]
    rw [ih fuel tail (pid + 1) (c0 ++ [pid]) (fun l hl => hg l (by simp [hl]))]
    have harith : pid + 1 + gs.length = pid + (g :: gs).length := by
      simp [List.length_cons]; omega
    rw [harith]
    have hrange : (c0 ++ [pid]) ++ List.range' (pid + 1) gs.length =
        c0 ++ List.range' pid (g :: gs).length := by
      simp [List.append_assoc, List.length_cons, List.range'_succ]
    rw [hrange]
    cases processLoop env fuel true prompt tail (pid + (g :: gs).length)
        (c0 ++ List.range' pid (g :: gs).length) <;>
      simp [Except.map, parLoopTrace]

theorem processLoop_inv (env : Env) :
    ∀ (fuel : Nat) (lines : List String) (par : Bool) (prompt : String) (pid : Nat)
      (c0 : List Nat) (body : List Event) (childs : List Nat) (pid' : Nat),
      processLoop env fuel par prompt lines pid c0 = Except.ok (body, childs, pid') →
      pid ≤ pid' ∧ ∃ δ, childs = c0 ++ δ ∧ List.Chain' (· < ·) δ ∧
        (∀ q ∈ δ, pid ≤ q ∧ q < pid') ∧
        (∀ q, countRep body q + δ.count q = if pid ≤ q ∧ q < pid' then 1 else 0) ∧
        (∀ q, countEcho body q = if pid ≤ q ∧ q < pid' then 1 else 0) := by
  intro fuel
  induction fuel with
  | zero =>
    intro lines par prompt pid c0 body childs pid' h
    simp [processLoop] at h
  | succ fuel ih =>
    intro lines par prompt pid c0 body childs pid' h
    cases lines with
    | nil =>
      simp only [processLoop, Except.ok.injEq, Prod.mk.injEq] at h
      obtain ⟨hb, hc, hp⟩ := h
      subst hb; subst hc; subst hp
      refine ⟨Nat.le_refl pid, [], by simp, List.chain'_nil, by simp, ?_, ?_⟩
      · intro q
        rw [if_neg (by omega)]
        simp [countRep]
      · intro q
        rw [if_neg (by omega)]
        simp [countEcho]
    | cons line rest =>
      by_cases hexit : line = "exit"
      · simp only [processLoop] at h
        rw [if_pos hexit] at h
        simp only [Except.ok.injEq, Prod.mk.injEq] at h
        obtain ⟨hb, hc, hp⟩ := h
        subst hb; subst hc; subst hp
        refine ⟨Nat.le_refl pid, [], by simp, List.chain'_nil, by simp, ?_, ?_⟩
        · intro q
          rw [if_neg (by omega)]
          simp [countRep]
        · intro q
          rw [if_neg (by omega)]
          simp [countEcho]
      · by_cases hskip : line = "" ∨ line.data.head? = some '#'
        · simp only [processLoop] at h
          rw [if_neg hexit, if_pos hskip] at h
          cases hrec : processLoop env fuel par prompt rest pid c0 with
          | error e => rw [hrec] at h; simp [Except.map] at h
          | ok r =>
            obtain ⟨evs, cs, p⟩ := r
            rw [hrec] at h
            simp only [Except.map, Except.ok.injEq, Prod.mk.injEq] at h
            obtain ⟨hb, hc, hp⟩ := h
            subst hb; subst hc; subst hp
            obtain ⟨hle, δ, hδ, hchain, hrange, hcount, hecho⟩ :=
              ih rest par prompt pid c0 evs cs p hrec
            refine ⟨hle, δ, hδ, hchain, hrange, ?_, ?_⟩
            · intro q
              rw [countRep_cons_promptEv]
              exact hcount q
            · intro q
              rw [countEcho_cons_promptEv]
              exact hecho q
        · simp only [processLoop] at h
          rw [if_neg hexit, if_neg hskip] at h
          cases hs0 : (split line)[0]? with
          | none => rw [hs0] at h; simp at h
          | some w0 =>
            rw [hs0] at h
            simp only at h
            by_cases hcomp : w0 = "SERIAL" ∨ w0 = "PARALLEL"
            · rw [if_pos hcomp] at h
              cases hs1 : (split line)[1]? with
              | none => rw [hs1] at h; simp at h
              | some ref =>
                rw [hs1] at h
                simp only at h
                cases hn : processLoop env fuel (w0 == "PARALLEL") "" (resolveRef env ref) pid [] with
                | error e => rw [hn] at h; simp at h
                | ok nr =>
                  obtain ⟨nev, ncs, npid⟩ := nr
                  rw [hn] at h
                  simp only at h
                  cases hc2 : processLoop env fuel par prompt rest npid c0 with
                  | error e => rw [hc2] at h; simp [Except.map] at h
                  | ok cr =>
                    obtain ⟨evs, cs, p⟩ := cr
                    rw [hc2] at h
                    simp only [Except.map, Except.ok.injEq, Prod.mk.injEq] at h
                    obtain ⟨hb, hc, hp⟩ := h
                    subst hb; subst hc; subst hp
                    obtain ⟨hle1, δn, hδn, _, _, hcountn, hechon⟩ :=
                      ih _ _ _ _ _ _ _ _ hn
                    obtain ⟨hle2, δ2, hδ2, hchain2, hrange2, hcount2, hecho2⟩ :=
                      ih _ _ _ _ _ _ _ _ hc2
                    simp only [List.nil_append] at hδn
                    subst hδn
                    refine ⟨Nat.le_trans hle1 hle2, δ2, hδ2, hchain2, ?_, ?_, ?_⟩
                    · intro q hq
                      obtain ⟨hq1, hq2⟩ := hrange2 q hq
                      exact ⟨Nat.le_trans hle1 hq1, hq2⟩
                    · intro q
                      rw [countRep_append, countRep_cons_promptEv, countRep_append,
                        countRep_drain]
                      have e1 := hcountn q
                      have e2 := hcount2 q
                      split_ifs at e1 e2 ⊢ <;> omega
                    · intro q
                      rw [countEcho_append, countEcho_cons_promptEv, countEcho_append,
                        countEcho_drain]
                      have e1 := hechon q
                      have e2 := hecho2 q
                      have e3 := hcountn q
                      split_ifs at e1 e2 e3 ⊢ <;> omega
            · rw [if_neg hcomp] at h
              cases par with
              | false =>
                simp only [Bool.false_eq_true, if_false] at h
                cases hc2 : processLoop env fuel false prompt rest (pid + 1) c0 with
                | error e => rw [hc2] at h; simp [Except.map] at h
                | ok cr =>
                  obtain ⟨evs, cs, p⟩ := cr
                  rw [hc2] at h
                  simp only [Except.map, Except.ok.injEq, Prod.mk.injEq] at h
                  obtain ⟨hb, hc, hp⟩ := h
                  subst hb; subst hc; subst hp
                  obtain ⟨hle2, δ2, hδ2, hchain2, hrange2, hcount2, hecho2⟩ :=
                    ih _ _ _ _ _ _ _ _ hc2
                  refine ⟨by omega, δ2, hδ2, hchain2, ?_, ?_, ?_⟩
                  · intro q hq
                    obtain ⟨hq1, hq2⟩ := hrange2 q hq
                    exact ⟨by omega, hq2⟩
                  · intro q
                    rw [countRep_cons_promptEv, countRep_cons_echo, countRep_cons_report]
                    have e2 := hcount2 q
                    split_ifs at e2 ⊢ <;> omega
                  · intro q
                    rw [countEcho_cons_promptEv, countEcho_cons_echo, countEcho_cons_report]
                    have e2 := hecho2 q
                    have e3 := hcount2 q
                    split_ifs at e2 e3 ⊢ <;> omega
              | true =>
                simp only [if_true] at h
                cases hc2 : processLoop env fuel true prompt rest (pid + 1) (c0 ++ [pid]) with
                | error e => rw [hc2] at h; simp [Except.map] at h
                | ok cr =>
                  obtain ⟨evs, cs, p⟩ := cr
                  rw [hc2] at h
                  simp only [Except.map, Except.ok.injEq, Prod.mk.injEq] at h
                  obtain ⟨hb, hc, hp⟩ := h
                  subst hb; subst hc; subst hp
                  obtain ⟨hle2, δ2, hδ2, hchain2, hrange2, hcount2, hecho2⟩ :=
                    ih _ _ _ _ _ _ _ _ hc2
                  refine ⟨by omega, pid :: δ2, ?_, ?_, ?_, ?_, ?_⟩
                  · rw [hδ2, List.append_assoc]
                    rfl
                  · refine List.chain'_cons'.mpr ⟨?_, hchain2⟩
                    intro y hy
                    have hmem : y ∈ δ2 := List.mem_of_mem_head? hy
                    obtain ⟨hy1, _⟩ := hrange2 y hmem
                    omega
                  · intro q hq
                    rcases List.mem_cons.mp hq with hq | hq
                    · subst hq
                      exact ⟨Nat.le_refl q, by omega⟩
                    · obtain ⟨hq1, hq2⟩ := hrange2 q hq
                      exact ⟨by omega, hq2⟩
                  · intro q
                    rw [countRep_cons_promptEv, countRep_cons_echo, List.count_cons]
                    simp only [beq_iff_eq]
                    have e2 := hcount2 q
                    split_ifs at e2 ⊢ <;> omega
                  · intro q
                    rw [countEcho_cons_promptEv, countEcho_cons_echo]
                    have e2 := hecho2 q
                    have e3 := hcount2 q
                    split_ifs at e2 e3 ⊢ <;> omega

/-- C5: resolving "http://localhost:8080/a/b.txt" yields hostname "localhost",
port "8080" and path "/a/b.txt"; resolving "http://example.org/index.html"
yields hostname "example.org", the default port "80", and path "/index.html". -/
theorem breakDownURL_examples :
    breakDownURL "http://localhost:8080/a/b.txt" = some ("localhost", "8080", "/a/b.txt") ∧
    breakDownURL "http://example.org/index.html" = some ("example.org", "80", "/index.html") :=
  ⟨rfl, rfl⟩

/-- C3 (code-bug evaluation): the whitespace-only line " " is not filtered by
the empty/comment check, yet tokenizes to the empty ArgumentList, so the
dispatcher's access to the first element is an out-of-range vector index. -/
theorem whitespace_line_oob :
    ¬(" " = "" ∨ (" ").data.head? = some '#') ∧
    split " " = [] ∧
    processLoop sampleEnv 2 false "> " [" "] 0 [] = Except.error Err.oob :=
  ⟨by decide, rfl, rfl⟩

/-- C4 (code-bug evaluation): the composite-verb line "SERIAL" with no second
word tokenizes to a one-element ArgumentList, and the dispatcher's access to
the second element is an out-of-range vector index, with no prior
validation. -/
theorem composite_missing_ref_oob :
    split "SERIAL" = ["SERIAL"] ∧
    (split "SERIAL")[1]? = none ∧
    processLoop sampleEnv 2 false "> " ["SERIAL"] 0 [] = Except.error Err.oob :=
  ⟨rfl, rfl, rfl⟩

/-- C6 counterexample: in "http://example.org/a:b.txt" the first ':' after
the host start lies after the path-starting '/', yet resolution does not end
the host at the '/' with default port "80"; it ends the host at the ':'
and returns the tail after the colon as the port. -/
theorem colon_in_path_counterexample :
    findCharFrom ("http://example.org/a:b.txt").data '/'
        (find2 ("http://example.org/a:b.txt").data + 2) <
      findCharFrom ("http://example.org/a:b.txt").data ':'
        (find2 ("http://example.org/a:b.txt").data + 2) ∧
    breakDownURL "http://example.org/a:b.txt" = some ("example.org/a", "b.txt", "/a:b.txt") ∧
    breakDownURL "http://example.org/a:b.txt" ≠ some ("example.org", "80", "/a:b.txt") :=
  ⟨by decide, rfl, by decide⟩

/-- C7 counterexample: "abc/def" contains no "//" protocol separator, yet
resolution does not fail; it silently produces the guessed decomposition
("bc", "80", "/def"). -/
theorem no_separator_counterexample :
    find2 ("abc/def").data = npos ∧
    breakDownURL "abc/def" = some ("bc", "80", "/def") :=
  ⟨rfl, rfl⟩

/-- C9: an empty line or a line whose first character is '#' is skipped
before tokenization and dispatch: in either execution mode it contributes
only the prompt print — no spawn echo, no change to the pid counter, no
change to the child list — before the loop continues with the rest. -/
theorem skip_line_no_spawn (env : Env) (fuel : Nat) (par : Bool) (prompt : String)
    (l : String) (rest : List String) (pid : Nat) (childs : List Nat)
    (h : l = "" ∨ l.data.head? = some '#') :
    processLoop env (fuel + 1) par prompt (l :: rest) pid childs =
      (processLoop env fuel par prompt rest pid childs).map
        (fun r => (Event.promptEv prompt :: r.1, r.2.1, r.2.2)) := by
  have hne : ¬(l = "exit") := by
    rcases h with h | h
    · subst h; decide
    · intro he
      subst he
      exact absurd h (by decide)
  simp only [processLoop]
  rw [if_neg hne, if_pos h]

/-- Witness for C9: the comment line "# c" in parallel mode. -/
theorem skip_line_no_spawn_witness :
    ("# c" = "" ∨ ("# c").data.head? = some '#') ∧
    processLoop sampleEnv 2 true "> " ["# c", "ls"] 0 [] =
      (processLoop sampleEnv 1 true "> " ["ls"] 0 []).map
        (fun r => (Event.promptEv "> " :: r.1, r.2.1, r.2.2)) :=
  ⟨by decide, skip_line_no_spawn sampleEnv 1 true "> " "# c" ["ls"] 0 [] (by decide)⟩

/-- C1: in serial mode a script of generic-command lines produces, for each
line in order, the prompt, the spawn echo, and immediately afterwards that
command's exit-code report, before the next line is read; N lines give
exactly N reports in strict line order, and the loop ends with the final
prompt of the failed read. -/
theorem serial_commands_trace (env : Env) (fuel : Nat) (lines : List String)
    (prompt : String) (pid : Nat)
    (hg : ∀ l ∈ lines, isGenericLine l = true) (hf : lines.length < fuel) :
    process env fuel lines prompt false pid =
      Except.ok (serialLoopTrace env prompt lines pid ++ [Event.promptEv prompt],
        pid + lines.length) := by
  obtain ⟨k, hk, hk1⟩ : ∃ k, fuel = k + lines.length ∧ 1 ≤ k :=
    ⟨fuel - lines.length, by omega, by omega⟩
  subst hk
  unfold process
  rw [show processLoop env (k + lines.length) false prompt lines pid [] =
        processLoop env (k + lines.length) false prompt (lines ++ []) pid [] by
      rw [List.append_nil]]
  rw [serial_loop_append env prompt lines k [] pid [] hg]
  obtain ⟨k', rfl⟩ : ∃ k', k = k' + 1 := ⟨k - 1, by omega⟩
  simp only [processLoop]
  simp [Except.map, drain]

/-- Witness for C1: the serial script ["ls", "pwd"]. -/
theorem serial_commands_trace_witness :
    ((∀ l ∈ ["ls", "pwd"], isGenericLine l = true) ∧
      (["ls", "pwd"] : List String).length < 3) ∧
    process sampleEnv 3 ["ls", "pwd"] "> " false 0 =
      Except.ok (serialLoopTrace sampleEnv "> " ["ls", "pwd"] 0 ++ [Event.promptEv "> "],
        0 + (["ls", "pwd"] : List String).length) :=
  ⟨⟨by decide, by decide⟩,
    serial_commands_trace sampleEnv 3 ["ls", "pwd"] "> " 0 (by decide) (by decide)⟩

/-- C10: reading the literal line "exit" ends the current invocation's loop
at the loop condition itself — the line is never tokenized or dispatched, no
echo is produced for it and the lines after it are never read — and in
parallel mode the pending drain of the invocation's child group is then
performed, reporting the deferred exit codes in spawn order. -/
theorem exit_terminates_drain (env : Env) (fuel : Nat) (gs rest : List String)
    (prompt : String) (pid : Nat)
    (hg : ∀ l ∈ gs, isGenericLine l = true) (hf : gs.length < fuel) :
    process env fuel (gs ++ "exit" :: rest) prompt true pid =
      Except.ok (parLoopTrace prompt gs pid ++ [Event.promptEv prompt] ++
        drain env (List.range' pid gs.length), pid + gs.length) := by
  obtain ⟨k, hk, hk1⟩ : ∃ k, fuel = k + gs.length ∧ 1 ≤ k :=
    ⟨fuel - gs.length, by omega, by omega⟩
  subst hk
  unfold process
  rw [par_loop_append env prompt gs k ("exit" :: rest) pid [] hg]
  obtain ⟨k', rfl⟩ : ∃ k', k = k' + 1 := ⟨k - 1, by omega⟩
  simp only [processLoop]
  simp [Except.map, drain, List.append_assoc]

/-- Witness for C10: one parallel command, then "exit", then an unread line. -/
theorem exit_terminates_drain_witness :
    ((∀ l ∈ ["ls"], isGenericLine l = true) ∧ (["ls"] : List String).length < 2) ∧
    process sampleEnv 2 (["ls"] ++ "exit" :: ["pwd"]) "> " true 0 =
      Except.ok (parLoopTrace "> " ["ls"] 0 ++ [Event.promptEv "> "] ++
        drain sampleEnv (List.range' 0 (["ls"] : List String).length),
        0 + (["ls"] : List String).length) :=
  ⟨⟨by decide, by decide⟩,
    exit_terminates_drain sampleEnv 2 ["ls"] ["pwd"] "> " 0 (by decide) (by decide)⟩

/-- C2: in a parallel-mode invocation whose loop produced the events `body`,
the accumulated child group `childs` holds exactly the handles this
invocation spawned, in spawn order (pids are allocated increasingly and lie
in this invocation's pid window); the full run appends the drain of those
handles — one report per handle, in the order they were added — after the
loop's events; none of them is waited on during line processing, each is
reported exactly once over the whole run, and each was echoed exactly once
at spawn time. -/
theorem parallel_drain_fifo (env : Env) (fuel : Nat) (prompt : String)
    (lines : List String) (pid : Nat) (body : List Event) (childs : List Nat) (pid' : Nat)
    (h : processLoop env fuel true prompt lines pid [] = Except.ok (body, childs, pid')) :
    process env fuel lines prompt true pid = Except.ok (body ++ drain env childs, pid') ∧
    List.Chain' (· < ·) childs ∧
    (∀ q ∈ childs, pid ≤ q ∧ q < pid') ∧
    (∀ q ∈ childs, countRep body q = 0) ∧
    (∀ q ∈ childs, countRep (body ++ drain env childs) q = 1) ∧
    (∀ q ∈ childs, countEcho body q = 1) := by
  obtain ⟨hle, δ, hδ, hchain, hrange, hcount, hecho⟩ :=
    processLoop_inv env fuel lines true prompt pid [] body childs pid' h
  simp only [List.nil_append] at hδ
  subst hδ
  have hone : ∀ q ∈ childs, countRep body q = 0 ∧ List.count q childs = 1 := by
    intro q hq
    have e := hcount q
    obtain ⟨h1, h2⟩ := hrange q hq
    rw [if_pos ⟨h1, h2⟩] at e
    have hc1 : 0 < List.count q childs := List.count_pos_iff.mpr hq
    omega
  refine ⟨?_, hchain, hrange, fun q hq => (hone q hq).1, ?_, ?_⟩
  · unfold process
    rw [h]
  · intro q hq
    rw [countRep_append, countRep_drain, (hone q hq).1, (hone q hq).2]
  · intro q hq
    have e := hecho q
    obtain ⟨h1, h2⟩ := hrange q hq
    rw [if_pos ⟨h1, h2⟩] at e
    exact e

/-- Witness for C2: the parallel script ["ls", "pwd"]. -/
theorem parallel_drain_fifo_witness :
    (processLoop sampleEnv 3 true "> " ["ls", "pwd"] 0 [] =
      Except.ok ([Event.promptEv "> ", Event.echo 0 ["ls"], Event.promptEv "> ",
        Event.echo 1 ["pwd"], Event.promptEv "> "], [0, 1], 2)) ∧
    (process sampleEnv 3 ["ls", "pwd"] "> " true 0 =
      Except.ok ([Event.promptEv "> ", Event.echo 0 ["ls"], Event.promptEv "> ",
        Event.echo 1 ["pwd"], Event.promptEv "> "] ++ drain sampleEnv [0, 1], 2) ∧
     List.Chain' (· < ·) [0, 1] ∧
     (∀ q ∈ [0, 1], 0 ≤ q ∧ q < 2) ∧
     (∀ q ∈ [0, 1], countRep [Event.promptEv "> ", Event.echo 0 ["ls"], Event.promptEv "> ",
        Event.echo 1 ["pwd"], Event.promptEv "> "] q = 0) ∧
     (∀ q ∈ [0, 1], countRep ([Event.promptEv "> ", Event.echo 0 ["ls"], Event.promptEv "> ",
        Event.echo 1 ["pwd"], Event.promptEv "> "] ++ drain sampleEnv [0, 1]) q = 1) ∧
     (∀ q ∈ [0, 1], countEcho [Event.promptEv "> ", Event.echo 0 ["ls"], Event.promptEv "> ",
        Event.echo 1 ["pwd"], Event.promptEv "> "] q = 1)) :=
  ⟨rfl, parallel_drain_fifo sampleEnv 3 "> " ["ls", "pwd"] 0
    [Event.promptEv "> ", Event.echo 0 ["ls"], Event.promptEv "> ",
      Event.echo 1 ["pwd"], Event.promptEv "> "] [0, 1] 2 rfl⟩

/-- C8: a composite-verb line runs the referenced nested script with the
execution mode named by the verb — the enclosing invocation's mode `par`
plays no role in the nested run — and the nested invocation is a fresh
`process` call that starts from its own empty child group, whose complete
trace (including its own drain) is inserted before the enclosing invocation
continues with its remaining lines and its own untouched child group. -/
theorem nested_mode_own_group (env : Env) (fuel : Nat) (l : String) (rest : List String)
    (prompt : String) (par : Bool) (pid : Nat) (w0 ref : String) (tl : List String)
    (hsplit : split l = w0 :: ref :: tl)
    (hw : w0 = "SERIAL" ∨ w0 = "PARALLEL")
    (hne : ¬(l = "exit"))
    (hnf : ¬(l = "" ∨ l.data.head? = some '#')) :
    process env (fuel + 1) (l :: rest) prompt par pid =
      match processScript env fuel ref (w0 == "PARALLEL") pid with
      | Except.error e => Except.error e
      | Except.ok nr =>
        (process env fuel rest prompt par nr.2).map
          (fun r => (Event.promptEv prompt :: nr.1 ++ r.1, r.2)) := by
  have h0 : (split l)[0]? = some w0 := by rw [hsplit]; rfl
  have h1 : (split l)[1]? = some ref := by rw [hsplit]; simp
  unfold process processScript
  unfold process
  simp only [processLoop]
  rw [if_neg hne, if_neg hnf, h0]
  simp only
  rw [if_pos hw, h1]
  simp only
  cases hn : processLoop env fuel (w0 == "PARALLEL") "" (resolveRef env ref) pid [] with
  | error e => rfl
  | ok nr =>
    obtain ⟨nev, ncs, npid⟩ := nr
    simp only
    cases hc2 : processLoop env fuel par prompt rest npid [] with
    | error e => rfl
    | ok cr =>
      obtain ⟨evs, cs, p⟩ := cr
      simp [Except.map, List.append_assoc]

/-- Witness for C8: the line "SERIAL kid.sh" inside a parallel invocation. -/
theorem nested_mode_own_group_witness :
    (split "SERIAL kid.sh" = ["SERIAL", "kid.sh"] ∧
      ("SERIAL" = "SERIAL" ∨ ("SERIAL" : String) = "PARALLEL") ∧
      ¬("SERIAL kid.sh" = "exit") ∧
      ¬("SERIAL kid.sh" = "" ∨ ("SERIAL kid.sh").data.head? = some '#')) ∧
    process sampleEnv 2 ["SERIAL kid.sh", "ls"] "> " true 0 =
      match processScript sampleEnv 1 "kid.sh" ("SERIAL" == "PARALLEL") 0 with
      | Except.error e => Except.error e
      | Except.ok nr =>
        (process sampleEnv 1 ["ls"] "> " true nr.2).map
          (fun r => (Event.promptEv "> " :: nr.1 ++ r.1, r.2)) :=
  ⟨⟨by decide, Or.inl rfl, by decide, by decide⟩,
    nested_mode_own_group sampleEnv 1 "SERIAL kid.sh" ["ls"] "> " true 0
      "SERIAL" "kid.sh" [] (by decide) (Or.inl rfl) (by decide) (by decide)⟩

theorem findCharAux_bounds (c : Char) :
    ∀ (l : List Char) (i k : Nat), findCharAux c l i = some k → i ≤ k ∧ k < i + l.length := by
  intro l
  induction l with
  | nil => intro i k h; simp [findCharAux] at h
  | cons d ds ih =>
    intro i k h
    simp only [findCharAux] at h
    by_cases hd : d = c
    · rw [if_pos hd] at h
      injection h with h
      subst h
      refine ⟨Nat.le_refl i, ?_⟩
      simp only [List.length_cons]
      omega
    · rw [if_neg hd] at h
      obtain ⟨h1, h2⟩ := ih (i + 1) k h
      refine ⟨by omega, ?_⟩
      simp only [List.length_cons]
      omega

theorem findCharFrom_bounds (s : List Char) (c : Char) (start : Nat)
    (h : findCharFrom s c start ≠ npos) (hlen : s.length < npos) :
    start ≤ findCharFrom s c start ∧ findCharFrom s c start < s.length := by
  unfold findCharFrom at h ⊢
  cases haux : findCharAux c (s.drop start) start with
  | none => rw [haux] at h; simp at h
  | some k =>
    simp only at h ⊢
    obtain ⟨h1, h2⟩ := findCharAux_bounds c (s.drop start) start k haux
    rw [List.length_drop] at h2
    exact ⟨h1, by omega⟩

theorem findSubAux_bounds (pat : List Char) :
    ∀ (l : List Char) (i k : Nat), findSubAux pat l i = some k →
      i ≤ k ∧ k + pat.length ≤ i + l.length := by
  intro l
  induction l with
  | nil => intro i k h; simp [findSubAux] at h
  | cons d ds ih =>
    intro i k h
    simp only [findSubAux] at h
    by_cases hp : pat.isPrefixOf (d :: ds) = true
    · rw [if_pos hp] at h
      injection h with h
      subst h
      have hple : pat.length ≤ (d :: ds).length :=
        (List.isPrefixOf_iff_prefix.mp hp).length_le
      exact ⟨Nat.le_refl i, by omega⟩
    · rw [if_neg hp] at h
      obtain ⟨h1, h2⟩ := ih (i + 1) k h
      refine ⟨by omega, ?_⟩
      simp only [List.length_cons]
      omega

theorem find2_bounds (s : List Char) (h : find2 s ≠ npos) : find2 s + 2 ≤ s.length := by
  unfold find2 at h ⊢
  cases haux : findSubAux ['/', '/'] s 0 with
  | none => rw [haux] at h; simp at h
  | some k =>
    simp only at h ⊢
    obtain ⟨h1, h2⟩ := findSubAux_bounds ['/', '/'] s 0 k haux
    simp only [List.length_cons, List.length_nil] at h2
    omega

/-- C6 amended: for every URL whose first ':' at or after the host start
occurs after the path-starting '/', the host segment ends at that ':' — so
the returned hostname includes the path characters up to the colon — the
path still starts at the first '/', and the returned port is the remainder
of the URL after the colon (the size_t count wraps and is clamped), not the
default "80". -/
theorem colon_in_path_amended (url : String)
    (hlen : url.data.length < npos)
    (hss : find2 url.data ≠ npos)
    (hc : findCharFrom url.data ':' (find2 url.data + 2) ≠ npos)
    (hlt : findCharFrom url.data '/' (find2 url.data + 2) <
      findCharFrom url.data ':' (find2 url.data + 2)) :
    breakDownURL url = some
      (String.mk ((url.data.drop (find2 url.data + 2)).take
          (findCharFrom url.data ':' (find2 url.data + 2) - (find2 url.data + 2))),
       String.mk (url.data.drop (findCharFrom url.data ':' (find2 url.data + 2) + 1)),
       String.mk (url.data.drop (findCharFrom url.data '/' (find2 url.data + 2)))) := by
  have h2b := find2_bounds url.data hss
  have hmod0 : (find2 url.data + 2) % (npos + 1) = find2 url.data + 2 :=
    Nat.mod_eq_of_lt (by omega)
  simp only [breakDownURL]
  rw [hmod0]
  obtain ⟨hc1, hc2⟩ := findCharFrom_bounds url.data ':' (find2 url.data + 2) hc hlen
  rw [if_neg hc]
  have hm1 : (findCharFrom url.data ':' (find2 url.data + 2) + (npos + 1) -
      (find2 url.data + 2)) % (npos + 1) =
      findCharFrom url.data ':' (find2 url.data + 2) - (find2 url.data + 2) := by
    have he : findCharFrom url.data ':' (find2 url.data + 2) + (npos + 1) -
        (find2 url.data + 2) =
        (findCharFrom url.data ':' (find2 url.data + 2) - (find2 url.data + 2)) +
          (npos + 1) := by omega
    rw [he, Nat.add_mod_right]
    exact Nat.mod_eq_of_lt (by omega)
  rw [hm1]
  have hsub1 : substr url.data (find2 url.data + 2)
      (findCharFrom url.data ':' (find2 url.data + 2) - (find2 url.data + 2)) =
      some ((url.data.drop (find2 url.data + 2)).take
        (findCharFrom url.data ':' (find2 url.data + 2) - (find2 url.data + 2))) := by
    unfold substr
    rw [if_pos (by omega)]
  rw [hsub1]
  have hsub2 : substr url.data (findCharFrom url.data '/' (find2 url.data + 2)) npos =
      some (url.data.drop (findCharFrom url.data '/' (find2 url.data + 2))) := by
    unfold substr
    rw [if_pos (by omega), List.take_of_length_le (by rw [List.length_drop]; omega)]
  rw [hsub2]
  simp only
  rw [if_neg hc]
  have hm2 : (findCharFrom url.data ':' (find2 url.data + 2) + 1) % (npos + 1) =
      findCharFrom url.data ':' (find2 url.data + 2) + 1 :=
    Nat.mod_eq_of_lt (by omega)
  rw [hm2]
  have hm3 : (findCharFrom url.data '/' (find2 url.data + 2) + (npos + 1) -
      (findCharFrom url.data ':' (find2 url.data + 2) + 1)) % (npos + 1) =
      npos + findCharFrom url.data '/' (find2 url.data + 2) -
        findCharFrom url.data ':' (find2 url.data + 2) := by
    have he : findCharFrom url.data '/' (find2 url.data + 2) + (npos + 1) -
        (findCharFrom url.data ':' (find2 url.data + 2) + 1) =
        npos + findCharFrom url.data '/' (find2 url.data + 2) -
          findCharFrom url.data ':' (find2 url.data + 2) := by omega
    rw [he]
    exact Nat.mod_eq_of_lt (by omega)
  rw [hm3]
  have hsub3 : substr url.data (findCharFrom url.data ':' (find2 url.data + 2) + 1)
      (npos + findCharFrom url.data '/' (find2 url.data + 2) -
        findCharFrom url.data ':' (find2 url.data + 2)) =
      some (url.data.drop (findCharFrom url.data ':' (find2 url.data + 2) + 1)) := by
    unfold substr
    rw [if_pos (by omega), List.take_of_length_le (by rw [List.length_drop]; omega)]
  rw [hsub3]

/-- Witness for the amended C6 at the URL "http://example.org/a:b.txt". -/
theorem colon_in_path_amended_witness :
    (("http://example.org/a:b.txt" : String).data.length < npos ∧
      find2 ("http://example.org/a:b.txt").data ≠ npos ∧
      findCharFrom ("http://example.org/a:b.txt").data ':'
        (find2 ("http://example.org/a:b.txt").data + 2) ≠ npos ∧
      findCharFrom ("http://example.org/a:b.txt").data '/'
          (find2 ("http://example.org/a:b.txt").data + 2) <
        findCharFrom ("http://example.org/a:b.txt").data ':'
          (find2 ("http://example.org/a:b.txt").data + 2)) ∧
    breakDownURL "http://example.org/a:b.txt" = some
      (String.mk ((("http://example.org/a:b.txt" : String).data.drop
          (find2 ("http://example.org/a:b.txt").data + 2)).take
          (findCharFrom ("http://example.org/a:b.txt").data ':'
              (find2 ("http://example.org/a:b.txt").data + 2) -
            (find2 ("http://example.org/a:b.txt").data + 2))),
       String.mk (("http://example.org/a:b.txt" : String).data.drop
          (findCharFrom ("http://example.org/a:b.txt").data ':'
              (find2 ("http://example.org/a:b.txt").data + 2) + 1)),
       String.mk (("http://example.org/a:b.txt" : String).data.drop
          (findCharFrom ("http://example.org/a:b.txt").data '/'
            (find2 ("http://example.org/a:b.txt").data + 2)))) :=
  ⟨⟨by decide, by decide, by decide, by decide⟩,
    colon_in_path_amended "http://example.org/a:b.txt"
      (by decide) (by decide) (by decide) (by decide)⟩

/-- C7 amended: for every URL with no "//" separator, the host-start
computation wraps (npos + 2 overflows to index 1); resolution fails (throws
std::out_of_range) exactly when the URL has no '/' at any index at or after
1, and otherwise silently produces a guessed decomposition instead of
failing. -/
theorem no_separator_amended (url : String)
    (hlen : url.data.length < npos)
    (hss : find2 url.data = npos) :
    (findCharFrom url.data '/' 1 = npos → breakDownURL url = none) ∧
    (findCharFrom url.data '/' 1 ≠ npos →
      ∃ hn po pa, breakDownURL url = some (hn, po, pa)) := by
  have hmod0 : (find2 url.data + 2) % (npos + 1) = 1 := by
    rw [hss]
    have he : npos + 2 = 1 + (npos + 1) := by omega
    rw [he, Nat.add_mod_right]
    exact Nat.mod_eq_of_lt (by omega)
  constructor
  · intro hp
    simp only [breakDownURL]
    rw [hmod0, hp]
    have hsubp : substr url.data npos npos = none := by
      unfold substr
      rw [if_neg (by omega)]
    by_cases hcp : findCharFrom url.data ':' 1 = npos
    · rw [if_pos hcp, hsubp]
      cases hx : substr url.data 1 ((npos + (npos + 1) - 1) % (npos + 1)) <;> rfl
    · rw [if_neg hcp, hsubp]
      cases hx : substr url.data 1
          ((findCharFrom url.data ':' 1 + (npos + 1) - 1) % (npos + 1)) <;> rfl
  · intro hp
    obtain ⟨hp1, hp2⟩ := findCharFrom_bounds url.data '/' 1 hp hlen
    simp only [breakDownURL]
    rw [hmod0]
    have hsub2 : substr url.data (findCharFrom url.data '/' 1) npos =
        some (url.data.drop (findCharFrom url.data '/' 1)) := by
      unfold substr
      rw [if_pos (by omega), List.take_of_length_le (by rw [List.length_drop]; omega)]
    rw [hsub2]
    by_cases hcp : findCharFrom url.data ':' 1 = npos
    · rw [if_pos hcp]
      have hsub1 : substr url.data 1
          ((findCharFrom url.data '/' 1 + (npos + 1) - 1) % (npos + 1)) =
          some ((url.data.drop 1).take
            ((findCharFrom url.data '/' 1 + (npos + 1) - 1) % (npos + 1))) := by
        unfold substr
        rw [if_pos (by omega)]
      rw [hsub1]
      simp only
      rw [if_pos hcp]
      exact ⟨_, _, _, rfl⟩
    · rw [if_neg hcp]
      obtain ⟨hcc1, hcc2⟩ := findCharFrom_bounds url.data ':' 1 hcp hlen
      have hsub1 : substr url.data 1
          ((findCharFrom url.data ':' 1 + (npos + 1) - 1) % (npos + 1)) =
          some ((url.data.drop 1).take
            ((findCharFrom url.data ':' 1 + (npos + 1) - 1) % (npos + 1))) := by
        unfold substr
        rw [if_pos (by omega)]
      rw [hsub1]
      simp only
      rw [if_neg hcp]
      have hm2 : (findCharFrom url.data ':' 1 + 1) % (npos + 1) =
          findCharFrom url.data ':' 1 + 1 :=
        Nat.mod_eq_of_lt (by omega)
      rw [hm2]
      have hsub3 : substr url.data (findCharFrom url.data ':' 1 + 1)
          ((findCharFrom url.data '/' 1 + (npos + 1) -
            (findCharFrom url.data ':' 1 + 1)) % (npos + 1)) =
          some ((url.data.drop (findCharFrom url.data ':' 1 + 1)).take
            ((findCharFrom url.data '/' 1 + (npos + 1) -
              (findCharFrom url.data ':' 1 + 1)) % (npos + 1))) := by
        unfold substr
        rw [if_pos (by omega)]
      rw [hsub3]
      exact ⟨_, _, _, rfl⟩

/-- Witness for the amended C7 at the separator-free string "abc/def". -/
theorem no_separator_amended_witness :
    (("abc/def" : String).data.length < npos ∧ find2 ("abc/def").data = npos) ∧
    ((findCharFrom ("abc/def").data '/' 1 = npos → breakDownURL "abc/def" = none) ∧
     (findCharFrom ("abc/def").data '/' 1 ≠ npos →
       ∃ hn po pa, breakDownURL "abc/def" = some (hn, po, pa))) :=
  ⟨⟨by decide, by decide⟩, no_separator_amended "abc/def" (by decide) (by decide)⟩

end Shell
